import Mathlib

/-!
Verification of the AIcyObsidian curling engine (`src/main.cpp`) against its
specification.  The development shallowly embeds the program's data model and
the operations the claims speak about:

* `SortStones` (src/main.cpp:31-52): the distance sort of the 16 stone slots.
* `OnMyTurn` (src/main.cpp:245-299): the turn planner, parametrised by the
  external simulator/player pipeline (`dc::ApplyMove`) and by the velocity
  estimator, which the planner only calls as black boxes.
* the magnitude regression of `EstimateShotVelocityFCV1` (src/main.cpp:84-135),
  over exact reals, with the IEEE domain failures (`log` of a non-positive
  number, `sqrt` of a negative number) made explicit as `Option.none`.
* `OnInit` (src/main.cpp:205-237), the `update` dispatch (src/main.cpp:490-533)
  and `main`'s error boundary (src/main.cpp:332-558).

Positions are exact rationals; the C++ code compares `Vector2::Length()`
values (a square root), which for exact arithmetic orders pairs exactly as the
squared distance does, so the embedding compares squared distances and stays
computable.
-/

namespace AIcyObsidian

/-- Rotation direction of a shot (`dc::moves::Shot::Rotation`). -/
inductive Rot
  | ccw
  | cw
  deriving DecidableEq, Repr

/-- A shot move: launch velocity plus rotation (`dc::moves::Shot`).  The
velocity type is a parameter: the planner never inspects the vector the
estimator returns, it only forwards it. -/
structure ShotMove (V : Type) where
  velocity : V
  rotation : Rot
  deriving DecidableEq, Repr

/-- `dc::Move`: a shot or a concession (`dc::moves::Concede`). -/
inductive MoveM (V : Type)
  | shot : ShotMove V → MoveM V
  | concede
  deriving DecidableEq, Repr

/-- Index into `GameState::stones`: a (team, stone number) pair
(src/main.cpp:20-24). -/
structure StoneIndex where
  team : Nat
  stone : Nat
  deriving DecidableEq, Repr

/-- A stone's position.  `dc::Transform` also carries an angle and velocities,
but the planner and the sort only read `position` and presence, so the
embedding keeps just the position. -/
abbrev Pos := ℚ × ℚ

/-- `dc::GameState::Stones`: for each (team, stone number), the optional stone
state.  Modelled as a total function; the program only ever indexes it with
team < 2 and stone < 8. -/
abbrev Stones := Nat → Nat → Option Pos

/-- The fields of `dc::GameState` that the embedded code reads: the stone
grid, the current shot index, and the optional match result. -/
structure GameStateM where
  stones : Stones
  shot : Nat
  gameResult : Option Unit

/-- Squared distance between two points; orders pairs exactly as
`(p - tee).Length()` does. -/
def distSq (tee p : Pos) : ℚ :=
  (p.1 - tee.1) ^ 2 + (p.2 - tee.2) ^ 2

/-- The comparison of `SortStones`'s inner loop (src/main.cpp:46):
`!stone_a || (stone_b && |a - tee| > |b - tee|)` — true means the adjacent
pair `(a, b)` is swapped. -/
def swapCond (tee : Pos) (stones : Stones) (a b : StoneIndex) : Bool :=
  match stones a.team a.stone, stones b.team b.stone with
  | none, _ => true
  | some _, none => false
  | some pa, some pb => decide (distSq tee pa > distSq tee pb)

/-- One execution of the inner loop `for (j = i; j > 0; --j)` of `SortStones`
(src/main.cpp:41-50) over the prefix it sweeps: the rightmost adjacent pair is
examined first and the sweep moves left, so the recursion first processes the
tail and then compares the head with whatever the tail's processing left in
position 1. -/
def sortPass (tee : Pos) (stones : Stones) : List StoneIndex → List StoneIndex
  | [] => []
  | a :: rest =>
    match sortPass tee stones rest with
    | [] => [a]
    | b :: bs => if swapCond tee stones a b then b :: a :: bs else a :: b :: bs

/-- The initial contents of the index array (src/main.cpp:33-37):
`result[i] = {i / 8, i % 8}`. -/
def initStoneIndices : List StoneIndex :=
  (List.range 16).map fun i => ⟨i / 8, i % 8⟩

/-- `SortStones` (src/main.cpp:31-52).  The outer loop `for (i = 1; i < 16;
++i)` runs the inner sweep over the prefix `result[0..i]`; positions beyond
`i` still hold their initial values when the sweep at `i` runs, so the whole
procedure is a left fold that appends the next initial index and sweeps. -/
def SortStones (tee : Pos) (stones : Stones) : List StoneIndex :=
  List.foldl (fun acc x => sortPass tee stones (acc ++ [x])) [] initStoneIndices

/-- Original linear index of a stone slot (the position it occupies in
`initStoneIndices`). -/
def origIdx (a : StoneIndex) : Nat :=
  a.team * 8 + a.stone

/-- Whether the slot holds a stone. -/
def presentB (stones : Stones) (a : StoneIndex) : Bool :=
  (stones a.team a.stone).isSome

/-- Squared distance of a slot's stone from the tee (junk value 0 when the
slot is empty; only compared between present stones). -/
def sdist (tee : Pos) (stones : Stones) (a : StoneIndex) : ℚ :=
  match stones a.team a.stone with
  | some p => distSq tee p
  | none => 0

/-- The strict order that `SortStones` actually realises: present stones
before absent ones; present stones by ascending distance, ties broken by the
original (team, stone) order; absent stones by descending original order
(each newly processed absent slot bubbles to the front of the absent block,
reversing it). -/
def stoneKeyLt (tee : Pos) (stones : Stones) (a b : StoneIndex) : Prop :=
  if presentB stones a then
    if presentB stones b then
      sdist tee stones a < sdist tee stones b ∨
        (sdist tee stones a = sdist tee stones b ∧ origIdx a < origIdx b)
    else True
  else
    if presentB stones b then False
    else origIdx b < origIdx a

/-- The insertion that one sweep of the inner loop performs on an already
ordered prefix: the new element `x` bubbles leftwards past exactly the
elements whose comparison with it demands a swap. -/
def bubbleInsert (tee : Pos) (stones : Stones) (x : StoneIndex) :
    List StoneIndex → List StoneIndex
  | [] => [x]
  | a :: as => if swapCond tee stones a x then x :: a :: as
               else a :: bubbleInsert tee stones x as

section SortLemmas

variable (tee : Pos) (stones : Stones)

lemma swapCond_eq (a b : StoneIndex) :
    swapCond tee stones a b =
      (!presentB stones a ||
        (presentB stones b && decide (sdist tee stones a > sdist tee stones b))) := by
  unfold swapCond presentB sdist
  cases stones a.team a.stone <;> cases stones b.team b.stone <;> simp

lemma stoneKeyLt_trans {a b c : StoneIndex} (hab : stoneKeyLt tee stones a b)
    (hbc : stoneKeyLt tee stones b c) : stoneKeyLt tee stones a c := by
  unfold stoneKeyLt at *
  by_cases pa : presentB stones a <;> by_cases pb : presentB stones b <;>
    by_cases pc : presentB stones c <;> simp [pa, pb, pc] at * <;> try exact hbc
  · rcases hab with hab | ⟨hab, hab'⟩ <;> rcases hbc with hbc | ⟨hbc, hbc'⟩
    · exact Or.inl (lt_trans hab hbc)
    · exact Or.inl (hbc ▸ hab)
    · exact Or.inl (hab ▸ hbc)
    · exact Or.inr ⟨hab.trans hbc, lt_trans hab' hbc'⟩
  · exact lt_trans hbc hab

/-- When the swap comparison rejects a swap, the pair is already in the
realised order, provided the right element came later in the original
array. -/
lemma keyLt_of_not_swapCond {a x : StoneIndex} (hidx : origIdx a < origIdx x)
    (h : swapCond tee stones a x = false) : stoneKeyLt tee stones a x := by
  rw [swapCond_eq] at h
  simp only [Bool.or_eq_false_iff, Bool.not_eq_false', Bool.and_eq_false_iff] at h
  obtain ⟨pa, hx⟩ := h
  unfold stoneKeyLt
  rw [if_pos pa]
  rcases hx with px | hd
  · rw [if_neg (by simp [px])]
    trivial
  · by_cases px : presentB stones x
    · rw [if_pos px]
      simp only [decide_eq_false_iff_not, not_lt] at hd
      rcases lt_or_eq_of_le hd with hlt | heq
      · exact Or.inl hlt
      · exact Or.inr ⟨heq, hidx⟩
    · rw [if_neg px]
      trivial

/-- When the swap comparison demands a swap, the new, later element precedes
the old one in the realised order. -/
lemma keyLt_of_swapCond {a x : StoneIndex} (hidx : origIdx a < origIdx x)
    (h : swapCond tee stones a x = true) : stoneKeyLt tee stones x a := by
  rw [swapCond_eq] at h
  unfold stoneKeyLt
  rcases hpa : presentB stones a with _ | _
  · by_cases px : presentB stones x
    · simp [hpa, px]
    · simp [hpa, px, hidx]
  · rw [hpa] at h
    simp only [Bool.not_true, Bool.false_or, Bool.and_eq_true, decide_eq_true_eq] at h
    simp only [hpa, h.1, if_true]
    exact Or.inl h.2

lemma bubbleInsert_ne_nil (x : StoneIndex) (l : List StoneIndex) :
    bubbleInsert tee stones x l ≠ [] := by
  cases l with
  | nil => simp [bubbleInsert]
  | cons a as =>
    unfold bubbleInsert
    split <;> simp

lemma bubbleInsert_perm (x : StoneIndex) (l : List StoneIndex) :
    (bubbleInsert tee stones x l).Perm (x :: l) := by
  induction l with
  | nil => exact List.Perm.refl _
  | cons a as ih =>
    unfold bubbleInsert
    split
    · exact List.Perm.refl _
    · exact (List.Perm.cons a ih).trans (List.Perm.swap x a as)

lemma mem_bubbleInsert {y x : StoneIndex} {l : List StoneIndex}
    (h : y ∈ bubbleInsert tee stones x l) : y = x ∨ y ∈ l := by
  have := (bubbleInsert_perm tee stones x l).mem_iff.mp h
  simpa using this

lemma bubbleInsert_pairwise {x : StoneIndex} {l : List StoneIndex}
    (hl : l.Pairwise (stoneKeyLt tee stones))
    (hdom : ∀ a ∈ l, origIdx a < origIdx x) :
    (bubbleInsert tee stones x l).Pairwise (stoneKeyLt tee stones) := by
  induction l with
  | nil => simp [bubbleInsert]
  | cons a as ih =>
    rw [List.pairwise_cons] at hl
    obtain ⟨ha, has⟩ := hl
    unfold bubbleInsert
    rcases hsw : swapCond tee stones a x with _ | _
    · simp only [Bool.false_eq_true, if_false]
      refine List.pairwise_cons.mpr ⟨?_, ih has fun b hb => hdom b (List.mem_cons_of_mem a hb)⟩
      intro b hb
      rcases mem_bubbleInsert tee stones hb with rfl | hb'
      · exact keyLt_of_not_swapCond tee stones (hdom a (List.mem_cons_self a as)) hsw
      · exact ha b hb'
    · simp only [if_true]
      have hxa : stoneKeyLt tee stones x a :=
        keyLt_of_swapCond tee stones (hdom a (List.mem_cons_self a as)) hsw
      refine List.pairwise_cons.mpr ⟨?_, List.pairwise_cons.mpr ⟨ha, has⟩⟩
      intro b hb
      rcases List.mem_cons.mp hb with rfl | hb'
      · exact hxa
      · exact stoneKeyLt_trans tee stones hxa (ha b hb')

lemma bubbleInsert_cons_eq (x a : StoneIndex) (as : List StoneIndex) :
    bubbleInsert tee stones x (a :: as) =
      if swapCond tee stones a x then x :: a :: as
      else a :: bubbleInsert tee stones x as := rfl

lemma sortPass_cons_eq (a : StoneIndex) (rest : List StoneIndex) :
    sortPass tee stones (a :: rest) =
      match sortPass tee stones rest with
      | [] => [a]
      | b :: bs => if swapCond tee stones a b then b :: a :: bs
                   else a :: b :: bs := rfl

/-- One inner-loop sweep over an ordered prefix with the new element appended
is exactly the bubble insertion of that element: whenever the sweep reaches a
pair of old elements, their order already rejects the swap. -/
lemma sortPass_append {l : List StoneIndex} (x : StoneIndex)
    (hl : l.Pairwise (stoneKeyLt tee stones)) :
    sortPass tee stones (l ++ [x]) = bubbleInsert tee stones x l := by
  induction l with
  | nil => rfl
  | cons a as ih =>
    obtain ⟨ha, has⟩ := List.pairwise_cons.mp hl
    have ihs := ih has
    rw [List.cons_append, sortPass_cons_eq, ihs]
    cases as with
    | nil => rfl
    | cons a' as' =>
      rcases hsw : swapCond tee stones a' x with _ | _
      · -- x does not pass a': the sweep next compares the old pair (a, a'),
        -- whose order already rejects the swap, and so does (a, x).
        have ha' : stoneKeyLt tee stones a a' := ha a' (List.mem_cons_self a' as')
        have h1 := hsw
        rw [swapCond_eq] at h1
        simp only [Bool.or_eq_false_iff, Bool.not_eq_false', Bool.and_eq_false_iff] at h1
        obtain ⟨pa', hx⟩ := h1
        have hkey := ha'
        unfold stoneKeyLt at hkey
        by_cases pa : presentB stones a
        · rw [if_pos pa, if_pos pa'] at hkey
          have hda : sdist tee stones a ≤ sdist tee stones a' := by
            rcases hkey with h | ⟨h, _⟩
            · exact le_of_lt h
            · exact le_of_eq h
          have hswa' : swapCond tee stones a a' = false := by
            rw [swapCond_eq]
            simp [pa, pa', not_lt.mpr hda]
          have hswx : swapCond tee stones a x = false := by
            rw [swapCond_eq]
            rcases hx with px | hd
            · simp [pa, px]
            · simp only [decide_eq_false_iff_not, not_lt] at hd
              simp [pa, not_lt.mpr (le_trans hda hd)]
          simp only [bubbleInsert_cons_eq, hsw, hswa', hswx, Bool.false_eq_true, if_false]
        · rw [if_neg pa, if_pos pa'] at hkey
          exact absurd hkey (by simp)
      · -- x passed a' and sits at the head of the processed tail.
        simp only [bubbleInsert_cons_eq, hsw, if_true]

/-- The outer loop of `SortStones`, processed elements arriving in ascending
original order, keeps the accumulated prefix ordered by `stoneKeyLt` and is a
permutation of everything processed so far. -/
lemma sortFold_invariant :
    ∀ (xs acc : List StoneIndex),
      acc.Pairwise (stoneKeyLt tee stones) →
      (∀ a ∈ acc, ∀ x ∈ xs, origIdx a < origIdx x) →
      xs.Pairwise (fun a b => origIdx a < origIdx b) →
      (List.foldl (fun acc x => sortPass tee stones (acc ++ [x])) acc xs).Pairwise
          (stoneKeyLt tee stones) ∧
        (List.foldl (fun acc x => sortPass tee stones (acc ++ [x])) acc xs).Perm
          (acc ++ xs) := by
  intro xs
  induction xs with
  | nil =>
    intro acc h _ _
    refine ⟨h, ?_⟩
    simp
  | cons x xs ih =>
    intro acc hacc hdom hxs
    rw [List.foldl_cons, sortPass_append tee stones x hacc]
    rw [List.pairwise_cons] at hxs
    obtain ⟨hx, hxs'⟩ := hxs
    have hdomx : ∀ a ∈ acc, origIdx a < origIdx x := fun a ha =>
      hdom a ha x (List.mem_cons_self x xs)
    have hacc' := bubbleInsert_pairwise tee stones hacc hdomx
    have hdom' : ∀ a ∈ bubbleInsert tee stones x acc, ∀ y ∈ xs, origIdx a < origIdx y := by
      intro a ha y hy
      rcases mem_bubbleInsert tee stones ha with rfl | ha'
      · exact hx y hy
      · exact hdom a ha' y (List.mem_cons_of_mem x hy)
    obtain ⟨hp, hperm⟩ := ih (bubbleInsert tee stones x acc) hacc' hdom' hxs'
    refine ⟨hp, hperm.trans ?_⟩
    have h1 : (bubbleInsert tee stones x acc ++ xs).Perm ((x :: acc) ++ xs) :=
      (bubbleInsert_perm tee stones x acc).append_right xs
    have h2 : ((x :: acc) ++ xs).Perm (acc ++ x :: xs) := List.perm_middle.symm
    exact h1.trans h2

end SortLemmas

/-- C3, counterexample.  The claim says equal-distance pairs — including pairs
of absent stones — retain their original (team, stone-number) order.  On the
configuration with all 16 stones absent, a stable comparison would leave the
array in its initial order; `SortStones` instead reverses it completely,
because the comparison `!stone_a || ...` swaps an adjacent pair of two absent
stones unconditionally. -/
theorem C3_counterexample :
    SortStones (0, 0) (fun _ _ => none) ≠ initStoneIndices ∧
      SortStones (0, 0) (fun _ _ => none) = initStoneIndices.reverse := by
  decide

/-- C3, amended.  For every 16-stone configuration, `SortStones` produces a
permutation of the 16 (team, stone-number) pairs that is sorted by
`stoneKeyLt`: present stones first, in ascending distance from the tee with
equal-distance present stones in original order, followed by the absent
stones in REVERSE original order (the original claim asserted absent stones
also keep their original order). -/
theorem C3_sorted_perm (tee : Pos) (stones : Stones) :
    (SortStones tee stones).Perm initStoneIndices ∧
      (SortStones tee stones).Pairwise (stoneKeyLt tee stones) := by
  have hinit : initStoneIndices.Pairwise (fun a b => origIdx a < origIdx b) := by
    decide
  obtain ⟨hp, hperm⟩ := sortFold_invariant tee stones initStoneIndices []
    (List.Pairwise.nil) (by simp) hinit
  exact ⟨by simpa using hperm, hp⟩

/-! ## The turn planner (`OnMyTurn`, src/main.cpp:245-299)

The planner calls two external collaborators, which the embedding takes as
parameters:

* `EstimateShotVelocityFCV1`, used as a black box producing a launch velocity
  from a target position, an arrival speed and a rotation (its magnitude
  model is verified separately below);
* the `dc::ApplyMove` pipeline (game setting, simulator, player noise),
  modelled as an oracle from the rollout's sequence number (the player's
  random state evolves from call to call), the simulator state loaded just
  before the call, and the move, to a resulting game state and simulator
  state.  `game_state` is fixed for the whole invocation, so it is baked into
  the oracle closure `app` exactly as the source rebuilds `temp_game_state`
  from `game_state` before every rollout.

The simulator/storage discipline of the source (`Save` once at entry,
`Load(storage)` immediately before every `ApplyMove`) is made visible: the
loops pass the storage contents to every oracle call and record them in a
ghost log `simLog`, and the planner's result carries the final simulator and
storage states. -/

/-- The external collaborators and session context `OnMyTurn` reads:
`g_team`, the tee constant, `EstimateShotVelocityFCV1`, and the
`dc::ApplyMove` pipeline (with `g_game_setting`, `current_player` and the
fixed `game_state` absorbed into the oracle). -/
structure PlannerEnv (V S : Type) where
  team : Nat
  tee : Pos
  est : Pos → ℚ → Rot → V
  applyMove : Nat → S → GameStateM → MoveM V → GameStateM × S

/-- Result of one planner invocation: the chosen move, the simulator state
when the call returns, the snapshot (`g_simulator_storage`) contents when the
call returns, and ghost instrumentation: the simulator state handed to each
rollout (`simLog`), the accepted speed and the two candidates' aggregate
scores (`none` on the defensive path). -/
structure PlannerOut (V S : Type) where
  move : MoveM V
  sim : S
  storage : S
  simLog : List S
  speedUsed : Option ℚ
  pts : Option (ℤ × ℤ)

/-- Result of the speed-search loop: the value of `speed` after the loop, the
next rollout sequence number, the simulator state after the loop, and the
ghost log of simulator states handed to the rollouts. -/
structure SpeedRes (S : Type) where
  speed : ℚ
  n : Nat
  sim : S
  log : List S

/-- The speed-search loop `for (; speed < 3.5f; speed += 0.5f)`
(src/main.cpp:261-271).  Each iteration restores the simulator from the
snapshot (`Load`, visible as the `storage` argument handed to `app`), applies
the CCW candidate at the current speed, and stops at the first speed whose
rollout satisfies `cond`; otherwise `speed` is incremented and, once
`speed < 3.5` fails, the loop exits with that incremented value.  The fuel
argument only bounds the recursion; 16 is more than the at most 6 iterations
the guard allows from 0.5. -/
def speedLoop {V S : Type} (app : Nat → MoveM V → S → GameStateM × S)
    (mk : ℚ → MoveM V) (cond : GameStateM → Bool) (storage : S) :
    Nat → Nat → ℚ → S → List S → SpeedRes S
  | 0, n, s, simCur, log => ⟨s, n, simCur, log⟩
  | fuel + 1, n, s, simCur, log =>
    if s < 7/2 then
      let r := app n (mk s) storage
      if cond r.1 then ⟨s, n + 1, r.2, log ++ [storage]⟩
      else speedLoop app mk cond storage fuel (n + 1) (s + 1/2) r.2 (log ++ [storage])
    else ⟨s, n, simCur, log⟩

/-- Result of the candidate-scoring loop. -/
structure ScoreRes (S : Type) where
  pts : ℤ × ℤ
  n : Nat
  sim : S
  log : List S

/-- The candidate-scoring loop `for (i = 0; i < 3; i++) for (j = 0; j < 2;
j++)` (src/main.cpp:278-292): per trial, each candidate is rolled out from
the restored snapshot and its score incremented by `sc` (one point for the
own shot slot being occupied, one for the target stone being gone).  `i`
counts the remaining trials. -/
def scoreLoop {V S : Type} (app : Nat → MoveM V → S → GameStateM × S)
    (sc : GameStateM → ℤ) (c0 c1 : MoveM V) (storage : S) :
    Nat → Nat → ℤ × ℤ → S → List S → ScoreRes S
  | 0, n, pts, simCur, log => ⟨pts, n, simCur, log⟩
  | i + 1, n, pts, simCur, log =>
    let r0 := app n c0 storage
    let r1 := app (n + 1) c1 storage
    scoreLoop app sc c0 c1 storage i (n + 2)
      (pts.1 + sc r0.1, pts.2 + sc r1.1) r1.2 (log ++ [storage, storage])

/-- The final selection (src/main.cpp:293-294):
`if (points[0] > points[1]) return candidate_shots[0]; else return
candidate_shots[1];` — note the else branch also captures the tie. -/
def chooseCandidate {V : Type} (pts : ℤ × ℤ) (c0 c1 : MoveM V) : MoveM V :=
  if pts.1 > pts.2 then c0 else c1

/-- The body of `for (auto const idx : sorted_indices)` (src/main.cpp:254-295).
Own-team entries are skipped; the first other-team entry either is absent
(`break`, falling through to the defensive draw shot of src/main.cpp:297-298)
or becomes the target of the speed search and candidate scoring, whose chosen
candidate is returned.  The defensive shot is also produced when the list is
exhausted. -/
def planScan {V S : Type} (env : PlannerEnv V S) (gs : GameStateM)
    (storage : S) (sim0 : S) : List StoneIndex → PlannerOut V S
  | [] => ⟨.shot ⟨env.est env.tee 0 .ccw, .ccw⟩, sim0, storage, [], none, none⟩
  | idx :: rest =>
    if idx.team = env.team then planScan env gs storage sim0 rest
    else
      match gs.stones idx.team idx.stone with
      | none => ⟨.shot ⟨env.est env.tee 0 .ccw, .ccw⟩, sim0, storage, [], none, none⟩
      | some pos =>
        let app : Nat → MoveM V → S → GameStateM × S :=
          fun n mv simSt => env.applyMove n simSt gs mv
        let shotNo := gs.shot
        let cond : GameStateM → Bool := fun g =>
          (g.stones (shotNo % 2) (shotNo / 2)).isSome &&
            (g.stones idx.team idx.stone).isNone
        let sr := speedLoop app (fun s => .shot ⟨env.est pos s .ccw, .ccw⟩) cond
          storage 16 0 (1/2) sim0 []
        let c0 : MoveM V := .shot ⟨env.est pos sr.speed .ccw, .ccw⟩
        let c1 : MoveM V := .shot ⟨env.est pos sr.speed .cw, .cw⟩
        let sc : GameStateM → ℤ := fun g =>
          (if (g.stones (shotNo % 2) (shotNo / 2)).isSome then 1 else 0) +
            (if (g.stones idx.team idx.stone).isNone then 1 else 0)
        let res := scoreLoop app sc c0 c1 storage 3 sr.n (0, 0) sr.sim sr.log
        ⟨chooseCandidate res.pts c0 c1, res.sim, storage, res.log,
          some sr.speed, some res.pts⟩

/-- `OnMyTurn` (src/main.cpp:245-299).  `sim0` is the simulator's physical
state at entry; `g_simulator->Save(*g_simulator_storage)` copies it into the
snapshot before the scan. -/
def OnMyTurn {V S : Type} (env : PlannerEnv V S) (sim0 : S)
    (gs : GameStateM) : PlannerOut V S :=
  let storage := sim0
  planScan env gs storage sim0 (SortStones env.tee gs.stones)

section PlannerLemmas

variable {V S : Type}

lemma speedLoop_succ (app : Nat → MoveM V → S → GameStateM × S)
    (mk : ℚ → MoveM V) (cond : GameStateM → Bool) (storage : S)
    (fuel n : Nat) (s : ℚ) (sim : S) (log : List S) :
    speedLoop app mk cond storage (fuel + 1) n s sim log =
      if s < 7/2 then
        if cond (app n (mk s) storage).1 then
          ⟨s, n + 1, (app n (mk s) storage).2, log ++ [storage]⟩
        else
          speedLoop app mk cond storage fuel (n + 1) (s + 1/2)
            (app n (mk s) storage).2 (log ++ [storage])
      else ⟨s, n, sim, log⟩ := rfl

lemma scoreLoop_succ (app : Nat → MoveM V → S → GameStateM × S)
    (sc : GameStateM → ℤ) (c0 c1 : MoveM V) (storage : S)
    (i n : Nat) (pts : ℤ × ℤ) (sim : S) (log : List S) :
    scoreLoop app sc c0 c1 storage (i + 1) n pts sim log =
      scoreLoop app sc c0 c1 storage i (n + 2)
        (pts.1 + sc (app n c0 storage).1, pts.2 + sc (app (n + 1) c1 storage).1)
        (app (n + 1) c1 storage).2 (log ++ [storage, storage]) := rfl

/-- Every simulator state the speed-search loop hands to a rollout is the
snapshot contents. -/
lemma speedLoop_log_mem (app : Nat → MoveM V → S → GameStateM × S)
    (mk : ℚ → MoveM V) (cond : GameStateM → Bool) (storage : S) :
    ∀ (fuel n : Nat) (s : ℚ) (sim : S) (log : List S) (x : S),
      x ∈ (speedLoop app mk cond storage fuel n s sim log).log →
        x ∈ log ∨ x = storage := by
  intro fuel
  induction fuel with
  | zero => intro n s sim log x h; exact Or.inl h
  | succ fuel ih =>
    intro n s sim log x h
    rw [speedLoop_succ] at h
    by_cases hs : s < 7/2
    · rw [if_pos hs] at h
      by_cases hc : cond (app n (mk s) storage).1
      · rw [if_pos hc] at h
        simpa using h
      · rw [if_neg hc] at h
        rcases ih _ _ _ _ x h with hm | hm
        · simpa using hm
        · exact Or.inr hm
    · rw [if_neg hs] at h
      exact Or.inl h

/-- Every simulator state the scoring loop hands to a rollout is the snapshot
contents. -/
lemma scoreLoop_log_mem (app : Nat → MoveM V → S → GameStateM × S)
    (sc : GameStateM → ℤ) (c0 c1 : MoveM V) (storage : S) :
    ∀ (i n : Nat) (pts : ℤ × ℤ) (sim : S) (log : List S) (x : S),
      x ∈ (scoreLoop app sc c0 c1 storage i n pts sim log).log →
        x ∈ log ∨ x = storage := by
  intro i
  induction i with
  | zero => intro n pts sim log x h; exact Or.inl h
  | succ i ih =>
    intro n pts sim log x h
    rw [scoreLoop_succ] at h
    rcases ih _ _ _ _ x h with hm | hm
    · rcases List.mem_append.mp hm with hm' | hm'
      · exact Or.inl hm'
      · have hx : x = storage ∨ x = storage := by simpa using hm'
        exact Or.inr (hx.elim id id)
    · exact Or.inr hm

lemma planScan_storage (env : PlannerEnv V S) (gs : GameStateM)
    (storage sim0 : S) :
    ∀ l : List StoneIndex, (planScan env gs storage sim0 l).storage = storage := by
  intro l
  induction l with
  | nil => rfl
  | cons idx rest ih =>
    unfold planScan
    by_cases ht : idx.team = env.team
    · rw [if_pos ht]
      exact ih
    · rw [if_neg ht]
      cases gs.stones idx.team idx.stone <;> rfl

lemma planScan_log (env : PlannerEnv V S) (gs : GameStateM)
    (storage sim0 : S) :
    ∀ (l : List StoneIndex) (x : S),
      x ∈ (planScan env gs storage sim0 l).simLog → x = storage := by
  intro l
  induction l with
  | nil => intro x h; exact absurd h (List.not_mem_nil x)
  | cons idx rest ih =>
    intro x h
    unfold planScan at h
    by_cases ht : idx.team = env.team
    · rw [if_pos ht] at h
      exact ih x h
    · rw [if_neg ht] at h
      rcases hst : gs.stones idx.team idx.stone with _ | pos

      · rw [hst] at h
        exact absurd h (List.not_mem_nil x)
      · rw [hst] at h
        rcases scoreLoop_log_mem _ _ _ _ _ _ _ _ _ _ x h with hm | hm
        · rcases speedLoop_log_mem _ _ _ _ _ _ _ _ _ x hm with hm' | hm'
          · exact absurd hm' (List.not_mem_nil x)
          · exact hm'
        · exact hm

lemma chooseCandidate_shot (pts : ℤ × ℤ) (s0 s1 : ShotMove V) :
    ∃ sh, chooseCandidate pts (.shot s0) (.shot s1) = .shot sh := by
  unfold chooseCandidate
  split
  · exact ⟨s0, rfl⟩
  · exact ⟨s1, rfl⟩

lemma chooseCandidate_rotation (pts : ℤ × ℤ) (v0 v1 : V) :
    ∃ v, chooseCandidate pts (.shot ⟨v0, .ccw⟩) (.shot ⟨v1, .cw⟩) =
      .shot ⟨v, if pts.1 > pts.2 then Rot.ccw else Rot.cw⟩ := by
  unfold chooseCandidate
  by_cases h : pts.1 > pts.2
  · exact ⟨v0, by rw [if_pos h, if_pos h]⟩
  · exact ⟨v1, by rw [if_neg h, if_neg h]⟩

lemma planScan_move_shape (env : PlannerEnv V S) (gs : GameStateM)
    (storage sim0 : S) :
    ∀ l : List StoneIndex, ∃ sh : ShotMove V,
      (planScan env gs storage sim0 l).move = .shot sh := by
  intro l
  induction l with
  | nil => exact ⟨_, rfl⟩
  | cons idx rest ih =>
    by_cases ht : idx.team = env.team
    · simpa only [planScan, if_pos ht] using ih
    · rcases hst : gs.stones idx.team idx.stone with _ | pos
      · simp only [planScan, if_neg ht, hst]
        exact ⟨_, rfl⟩
      · simp only [planScan, if_neg ht, hst]
        exact chooseCandidate_shot _ _ _

lemma planScan_pts_move (env : PlannerEnv V S) (gs : GameStateM)
    (storage sim0 : S) :
    ∀ (l : List StoneIndex) (p : ℤ × ℤ),
      (planScan env gs storage sim0 l).pts = some p →
        ∃ v, (planScan env gs storage sim0 l).move =
          .shot ⟨v, if p.1 > p.2 then Rot.ccw else Rot.cw⟩ := by
  intro l
  induction l with
  | nil => intro p hp; exact absurd hp (by simp [planScan])
  | cons idx rest ih =>
    intro p hp
    by_cases ht : idx.team = env.team
    · rw [show planScan env gs storage sim0 (idx :: rest) =
        planScan env gs storage sim0 rest from by
          simp only [planScan, if_pos ht]] at hp ⊢
      exact ih p hp
    · rcases hst : gs.stones idx.team idx.stone with _ | pos
      · simp only [planScan, if_neg ht, hst] at hp
        exact absurd hp (by simp)
      · simp only [planScan, if_neg ht, hst] at hp ⊢
        rw [Option.some.injEq] at hp
        subst hp
        exact chooseCandidate_rotation _ _ _

lemma planScan_defensive (env : PlannerEnv V S) (gs : GameStateM)
    (storage sim0 : S)
    (h : ∀ t s : Nat, t ≠ env.team → gs.stones t s = none) :
    ∀ l : List StoneIndex,
      (planScan env gs storage sim0 l).move =
        .shot ⟨env.est env.tee 0 .ccw, .ccw⟩ := by
  intro l
  induction l with
  | nil => rfl
  | cons idx rest ih =>
    unfold planScan
    by_cases ht : idx.team = env.team
    · rw [if_pos ht]
      exact ih
    · rw [if_neg ht, h idx.team idx.stone ht]


end PlannerLemmas

/-! ### Concrete fixtures

Small concrete instantiations of the external collaborators, used for the
counterexamples and witnesses: a rollout oracle that always reports the empty
board and leaves the simulator in state `42`, over simulator states modelled
as natural numbers. -/

/-- A game state with no stones on the board, shot index 0 and no result. -/
def emptyGS : GameStateM := ⟨fun _ _ => none, 0, none⟩

/-- A game state whose only present stone is the opponent's (team 1, stone 0),
seen by a planner playing team 0. -/
def gsOneOpp : GameStateM :=
  ⟨fun t s => if t = 1 ∧ s = 0 then some (1, 1) else none, 0, none⟩

/-- Planner environment with opaque velocities: every rollout clears the
board (so the own-slot check fails and the target-gone check succeeds in
every trial, scoring 1 point each and forcing a tie) and moves the simulator
to state 42. -/
def envUnit : PlannerEnv Unit ℕ :=
  ⟨0, (0, 0), fun _ _ _ => (), fun _ _ _ _ => (emptyGS, 42)⟩

/-- The same oracle with velocities that record the requested arrival speed,
so the chosen speed is visible in the returned move. -/
def envSpeed : PlannerEnv ℚ ℕ :=
  ⟨0, (0, 0), fun _ s _ => s, fun _ _ _ _ => (emptyGS, 42)⟩

/-- C10.  For every environment, simulator state and game state, `OnMyTurn`
returns the Shot variant of `Move`: the planner never produces a Concede,
although the `Move` union and the serialisation path admit one. -/
theorem C10_never_concede {V S : Type} (env : PlannerEnv V S) (sim0 : S)
    (gs : GameStateM) : ∃ sh, (OnMyTurn env sim0 gs).move = MoveM.shot sh :=
  planScan_move_shape env gs sim0 sim0 _

/-- C4, amended.  The planner saves the simulator state into the snapshot at
entry and restores from the snapshot immediately before every trial rollout
(every simulator state handed to the `ApplyMove` pipeline is the snapshot
contents, i.e. the entry state), and the snapshot still holds the entry state
when `OnMyTurn` returns; but the simulator itself is NOT restored at exit —
after a planning pass it holds the final trial's post-rollout state (see the
counterexample), contrary to the original claim. -/
theorem C4_snapshot_discipline {V S : Type} (env : PlannerEnv V S) (sim0 : S)
    (gs : GameStateM) :
    (OnMyTurn env sim0 gs).storage = sim0 ∧
      ∀ x ∈ (OnMyTurn env sim0 gs).simLog, x = sim0 :=
  ⟨planScan_storage env gs sim0 sim0 _,
    fun x hx => planScan_log env gs sim0 sim0 _ x hx⟩

/-- C4, counterexample.  With the concrete oracle whose rollouts leave the
simulator in state 42, a planning invocation entered with simulator state 0
returns with the simulator in state 42, not the entry state: the source never
reloads the snapshot after the last scoring rollout. -/
theorem C4_counterexample :
    (OnMyTurn envUnit 0 gsOneOpp).sim = 42 ∧ (42 : ℕ) ≠ 0 :=
  ⟨rfl, by decide⟩

/-- C8.  Whenever the snapshot contains no present opponent stone, the
planner falls through to the defensive draw: a Shot at the estimator's output
for the tee at arrival speed 0 with the fixed counter-clockwise rotation
(src/main.cpp:297-298). -/
theorem C8_no_target_draw {V S : Type} (env : PlannerEnv V S) (sim0 : S)
    (gs : GameStateM)
    (h : ∀ t s : Nat, t ≠ env.team → gs.stones t s = none) :
    (OnMyTurn env sim0 gs).move = .shot ⟨env.est env.tee 0 .ccw, .ccw⟩ :=
  planScan_defensive env gs sim0 sim0 h _

/-- C8, witness: the all-absent board with the concrete environment. -/
theorem C8_no_target_draw_witness :
    (∀ t s : Nat, t ≠ envUnit.team → emptyGS.stones t s = none) ∧
      (OnMyTurn envUnit 0 emptyGS).move =
        .shot ⟨envUnit.est envUnit.tee 0 .ccw, .ccw⟩ :=
  ⟨fun _ _ _ => rfl, C8_no_target_draw envUnit 0 emptyGS (fun _ _ _ => rfl)⟩

/-- C1, amended.  Whenever the planner scores the two rotation candidates
(aggregate scores `p`), the candidate with the strictly higher score is
returned; on a tie the SECOND (clockwise) candidate is returned, because the
source's `else` branch (src/main.cpp:294) captures `points[0] == points[1]` —
the original claim said the tie goes to the counter-clockwise candidate. -/
theorem C1_candidate_selection {V S : Type} (env : PlannerEnv V S) (sim0 : S)
    (gs : GameStateM) (p : ℤ × ℤ)
    (hp : (OnMyTurn env sim0 gs).pts = some p) :
    ∃ v, (OnMyTurn env sim0 gs).move =
      .shot ⟨v, if p.1 > p.2 then Rot.ccw else Rot.cw⟩ :=
  planScan_pts_move env gs sim0 sim0 _ p hp

/-- C1, witness for the amended selection rule at the concrete tie. -/
theorem C1_candidate_selection_witness :
    (OnMyTurn envUnit 0 gsOneOpp).pts = some (3, 3) ∧
      ∃ v, (OnMyTurn envUnit 0 gsOneOpp).move =
        .shot ⟨v, if (3 : ℤ) > (3 : ℤ) then Rot.ccw else Rot.cw⟩ :=
  ⟨by decide, C1_candidate_selection envUnit 0 gsOneOpp (3, 3) (by decide)⟩

/-- C1, counterexample.  With the concrete oracle every trial scores one
point for each candidate, so the aggregate scores tie at (3, 3) — and the
planner returns the CLOCKWISE candidate, not the first (counter-clockwise)
one the claim promises. -/
theorem C1_counterexample :
    (OnMyTurn envUnit 0 gsOneOpp).pts = some (3, 3) ∧
      (OnMyTurn envUnit 0 gsOneOpp).move = .shot ⟨(), Rot.cw⟩ :=
  ⟨by decide, by decide⟩

/-- C2, amended.  The speed search tries 0.5, 1.0, …, 3.0 in ascending order
(rollout `k` is the loop's `k`-th `ApplyMove` call) and accepts the first
speed whose rollout satisfies the condition; when none of the six speeds in
`[0.5, 3.5)` qualifies, the loop leaves `speed` at 3.5 — the increment past
the last speed actually tried — and the candidates are built at 3.5, not at
the last tried speed 3.0 as the original claim stated. -/
theorem C2_speed_search {V S : Type} (app : Nat → MoveM V → S → GameStateM × S)
    (mk : ℚ → MoveM V) (cond : GameStateM → Bool) (storage : S)
    (n : Nat) (sim : S) (log : List S) :
    (cond (app n (mk (1/2)) storage).1 = true ∧
      (speedLoop app mk cond storage 16 n (1/2) sim log).speed = 1/2) ∨
    (cond (app n (mk (1/2)) storage).1 = false ∧
      cond (app (n+1) (mk 1) storage).1 = true ∧
      (speedLoop app mk cond storage 16 n (1/2) sim log).speed = 1) ∨
    (cond (app n (mk (1/2)) storage).1 = false ∧
      cond (app (n+1) (mk 1) storage).1 = false ∧
      cond (app (n+2) (mk (3/2)) storage).1 = true ∧
      (speedLoop app mk cond storage 16 n (1/2) sim log).speed = 3/2) ∨
    (cond (app n (mk (1/2)) storage).1 = false ∧
      cond (app (n+1) (mk 1) storage).1 = false ∧
      cond (app (n+2) (mk (3/2)) storage).1 = false ∧
      cond (app (n+3) (mk 2) storage).1 = true ∧
      (speedLoop app mk cond storage 16 n (1/2) sim log).speed = 2) ∨
    (cond (app n (mk (1/2)) storage).1 = false ∧
      cond (app (n+1) (mk 1) storage).1 = false ∧
      cond (app (n+2) (mk (3/2)) storage).1 = false ∧
      cond (app (n+3) (mk 2) storage).1 = false ∧
      cond (app (n+4) (mk (5/2)) storage).1 = true ∧
      (speedLoop app mk cond storage 16 n (1/2) sim log).speed = 5/2) ∨
    (cond (app n (mk (1/2)) storage).1 = false ∧
      cond (app (n+1) (mk 1) storage).1 = false ∧
      cond (app (n+2) (mk (3/2)) storage).1 = false ∧
      cond (app (n+3) (mk 2) storage).1 = false ∧
      cond (app (n+4) (mk (5/2)) storage).1 = false ∧
      cond (app (n+5) (mk 3) storage).1 = true ∧
      (speedLoop app mk cond storage 16 n (1/2) sim log).speed = 3) ∨
    (cond (app n (mk (1/2)) storage).1 = false ∧
      cond (app (n+1) (mk 1) storage).1 = false ∧
      cond (app (n+2) (mk (3/2)) storage).1 = false ∧
      cond (app (n+3) (mk 2) storage).1 = false ∧
      cond (app (n+4) (mk (5/2)) storage).1 = false ∧
      cond (app (n+5) (mk 3) storage).1 = false ∧
      (speedLoop app mk cond storage 16 n (1/2) sim log).speed = 7/2) := by
  rw [show (16 : ℕ) = 15 + 1 from rfl, speedLoop_succ,
    if_pos (by norm_num : (1 : ℚ)/2 < 7/2)]
  rcases h0 : cond (app n (mk (1/2)) storage).1 with _ | _
  · rw [if_neg Bool.false_ne_true,
      show (1 : ℚ)/2 + 1/2 = 1 from by norm_num,
      show (15 : ℕ) = 14 + 1 from rfl, speedLoop_succ,
      if_pos (by norm_num : (1 : ℚ) < 7/2)]
    rcases h1 : cond (app (n+1) (mk 1) storage).1 with _ | _
    · rw [if_neg Bool.false_ne_true,
        show (1 : ℚ) + 1/2 = 3/2 from by norm_num,
        show (14 : ℕ) = 13 + 1 from rfl, speedLoop_succ,
        if_pos (by norm_num : (3 : ℚ)/2 < 7/2),
        show n + 1 + 1 = n + 2 from rfl]
      rcases h2 : cond (app (n+2) (mk (3/2)) storage).1 with _ | _
      · rw [if_neg Bool.false_ne_true,
          show (3 : ℚ)/2 + 1/2 = 2 from by norm_num,
          show (13 : ℕ) = 12 + 1 from rfl, speedLoop_succ,
          if_pos (by norm_num : (2 : ℚ) < 7/2),
          show n + 2 + 1 = n + 3 from rfl]
        rcases h3 : cond (app (n+3) (mk 2) storage).1 with _ | _
        · rw [if_neg Bool.false_ne_true,
            show (2 : ℚ) + 1/2 = 5/2 from by norm_num,
            show (12 : ℕ) = 11 + 1 from rfl, speedLoop_succ,
            if_pos (by norm_num : (5 : ℚ)/2 < 7/2),
            show n + 3 + 1 = n + 4 from rfl]
          rcases h4 : cond (app (n+4) (mk (5/2)) storage).1 with _ | _
          · rw [if_neg Bool.false_ne_true,
              show (5 : ℚ)/2 + 1/2 = 3 from by norm_num,
              show (11 : ℕ) = 10 + 1 from rfl, speedLoop_succ,
              if_pos (by norm_num : (3 : ℚ) < 7/2),
              show n + 4 + 1 = n + 5 from rfl]
            rcases h5 : cond (app (n+5) (mk 3) storage).1 with _ | _
            · rw [if_neg Bool.false_ne_true,
                show (3 : ℚ) + 1/2 = 7/2 from by norm_num,
                show (10 : ℕ) = 9 + 1 from rfl, speedLoop_succ,
                if_neg (by norm_num : ¬((7 : ℚ)/2 < 7/2))]
              exact Or.inr (Or.inr (Or.inr (Or.inr (Or.inr (Or.inr
                ⟨rfl, rfl, rfl, rfl, rfl, rfl, rfl⟩)))))
            · rw [if_pos rfl]
              exact Or.inr (Or.inr (Or.inr (Or.inr (Or.inr (Or.inl
                ⟨rfl, rfl, rfl, rfl, rfl, rfl, rfl⟩)))))
          · rw [if_pos rfl]
            exact Or.inr (Or.inr (Or.inr (Or.inr (Or.inl
              ⟨rfl, rfl, rfl, rfl, rfl, rfl⟩))))
        · rw [if_pos rfl]
          exact Or.inr (Or.inr (Or.inr (Or.inl ⟨rfl, rfl, rfl, rfl, rfl⟩)))
      · rw [if_pos rfl]
        exact Or.inr (Or.inr (Or.inl ⟨rfl, rfl, rfl, rfl⟩))
    · rw [if_pos rfl]
      exact Or.inr (Or.inl ⟨rfl, rfl, rfl⟩)
  · rw [if_pos rfl]
    exact Or.inl ⟨rfl, rfl⟩

/-- The rollout oracle, candidate builder and acceptance condition that
`planScan` constructs for the `envSpeed` fixture targeting the opponent stone
(team 1, stone 0) of `gsOneOpp`; spelled out so the speed search can be
analysed through `C2_speed_search`. -/
def c2app : Nat → MoveM ℚ → ℕ → GameStateM × ℕ :=
  fun n mv simSt => envSpeed.applyMove n simSt gsOneOpp mv

/-- The CCW probe candidate at a given arrival speed for the `envSpeed`
fixture. -/
def c2mk : ℚ → MoveM ℚ :=
  fun s => .shot ⟨envSpeed.est (1, 1) s .ccw, .ccw⟩

/-- The acceptance condition of the speed search for the `envSpeed` fixture:
own shot slot occupied and target stone gone. -/
def c2cond : GameStateM → Bool :=
  fun g => (g.stones (gsOneOpp.shot % 2) (gsOneOpp.shot / 2)).isSome &&
    (g.stones 1 0).isNone

/-- C2, counterexample.  With the concrete oracle whose rollouts never
satisfy the acceptance condition, the planner builds its candidates at speed
3.5 — the value of `speed` when `speed < 3.5` first fails — and not at 3.0,
the last speed actually tried, as the claim states. -/
theorem C2_counterexample :
    (OnMyTurn envSpeed 0 gsOneOpp).speedUsed = some (7/2) ∧ (7 : ℚ)/2 ≠ 3 := by
  have hlink : (OnMyTurn envSpeed 0 gsOneOpp).speedUsed =
      some ((speedLoop c2app c2mk c2cond 0 16 0 (1/2) 0 []).speed) := rfl
  rcases C2_speed_search c2app c2mk c2cond 0 0 0 [] with
      ⟨h, _⟩ | ⟨_, h, _⟩ | ⟨_, _, h, _⟩ | ⟨_, _, _, h, _⟩ |
      ⟨_, _, _, _, h, _⟩ | ⟨_, _, _, _, _, h, _⟩ | ⟨_, _, _, _, _, _, h72⟩
  · exact absurd h (by decide)
  · exact absurd h (by decide)
  · exact absurd h (by decide)
  · exact absurd h (by decide)
  · exact absurd h (by decide)
  · exact absurd h (by decide)
  · exact ⟨hlink.trans (congrArg some h72), by norm_num⟩

/-! ## Match initialisation (`OnInit`, src/main.cpp:205-237) -/

/-- Which simulator `OnInit` installs into the session. -/
inductive SimChoice
  | fromFactory (id : String)
  | defaultFCV1
  deriving DecidableEq

/-- Which player model a slot receives. -/
inductive PlayerChoice
  | fromFactory
  | defaultNormalDist
  deriving DecidableEq

/-- What `OnInit` produces: whether the unsupported-simulator warning was
printed, the installed simulator, and the four player slots. -/
structure InitResult where
  warned : Bool
  sim : SimChoice
  players : Fin 4 → PlayerChoice

/-- `OnInit` (src/main.cpp:205-237).  `simFactory` is `GetSimulatorId()` of
the configured simulator factory, or `none` when the factory is absent (the
protocol layer stores `nullptr` for unsupported simulators);
`playerPresent i` says whether player slot `i` received a factory.  In the
source the guard
`if (simulator_factory == nullptr || simulator_factory->GetSimulatorId() != "fcv1") {`
sits on the same line as the `// TODO` comment (src/main.cpp:212) and is
therefore commented out: the warning statement below it executes
unconditionally. -/
def OnInit (simFactory : Option String) (playerPresent : Fin 4 → Bool) :
    InitResult where
  warned := true
  sim :=
    match simFactory with
    | some id => .fromFactory id
    | none => .defaultFCV1
  players := fun i =>
    if playerPresent i then .fromFactory else .defaultNormalDist

/-- C6.  The claim says the unsupported-simulator warning is printed IF AND
ONLY IF the configured simulator differs from the supported "fcv1" variant;
but the guard is swallowed by the comment at src/main.cpp:212, so the warning
is printed even when the configured simulator IS "fcv1" (the code contradicts
its own warning text and the commented-out condition — a slip, hence a code
bug rather than a spec error).  The fallback halves of the claim do hold:
an absent simulator factory yields the default FCV1 simulator, and absent
player slots yield the default normal-distribution player. -/
theorem C6_warning_unconditional (playerPresent : Fin 4 → Bool) :
    (OnInit (some "fcv1") playerPresent).warned = true ∧
      (OnInit none playerPresent).sim = .defaultFCV1 ∧
      ∀ i, playerPresent i = false →
        (OnInit (some "fcv1") playerPresent).players i = .defaultNormalDist := by
  refine ⟨rfl, rfl, fun i hi => ?_⟩
  simp [OnInit, hi]

/-! ## The update dispatch of the protocol loop (src/main.cpp:490-533) -/

/-- What one iteration of the `while (true)` loop does with a parsed
"update" snapshot. -/
inductive UpdateAction (V : Type)
  | terminate
  | emitMove (m : MoveM V)
  | observeOpponent
  deriving DecidableEq

/-- The dispatch on a parsed "update" snapshot (src/main.cpp:500-532): a
present match result breaks out of the loop; otherwise, on this side's turn
the planner runs and its move is emitted, else the opponent-turn hook runs.
`nextTeam` stands for the library call `game_state.GetNextTeam()` (not part
of this repository). -/
def updateStep {V S : Type} (env : PlannerEnv V S) (sim0 : S) (team : Nat)
    (nextTeam : GameStateM → Nat) (gs : GameStateM) : UpdateAction V :=
  if gs.gameResult.isSome then .terminate
  else if nextTeam gs = team then .emitMove (OnMyTurn env sim0 gs).move
  else .observeOpponent

/-- C7.  For every "update" snapshot carrying a match result, the loop
terminates without invoking the turn planner: no "move" message is emitted
for a concluded match. -/
theorem C7_result_terminates {V S : Type} (env : PlannerEnv V S) (sim0 : S)
    (team : Nat) (nextTeam : GameStateM → Nat) (gs : GameStateM)
    (h : gs.gameResult.isSome) :
    updateStep env sim0 team nextTeam gs = .terminate := by
  unfold updateStep
  rw [if_pos h]

/-- C7, witness: a concluded snapshot with the concrete fixtures. -/
theorem C7_result_terminates_witness :
    (GameStateM.mk (fun _ _ => none) 0 (some ())).gameResult.isSome = true ∧
      updateStep envUnit 0 0 (fun _ => 0)
        (GameStateM.mk (fun _ _ => none) 0 (some ())) = .terminate :=
  ⟨rfl, C7_result_terminates envUnit 0 0 (fun _ => 0) _ rfl⟩

/-! ## The process entry point (`main`, src/main.cpp:332-558) -/

/-- How a run of the protocol session body ends: normally, or with any
exception reaching the top-level boundary (unexpected command tag,
unsupported protocol major version, unsupported ruleset, transport error,
malformed payload all throw). -/
inductive RunOutcome
  | ok
  | raised
  deriving DecidableEq

/-- What `main` observably does: the exit status, whether usage went to
standard error, whether a connection was attempted, and whether the
top-level boundary logged an exception. -/
structure MainResult where
  exitCode : Nat
  usagePrinted : Bool
  connectionAttempted : Bool
  loggedException : Bool
  deriving DecidableEq

/-- `main` (src/main.cpp:332-558).  The argument-count check sits before the
connection attempt and returns 1 after printing usage (src/main.cpp:344-348);
every other failure propagates as an exception to the catch blocks
(src/main.cpp:548-555), which log to standard error and fall through to
`return 0` — the same status as a normal run. -/
def mainModel (argc : Nat) (outcome : RunOutcome) : MainResult :=
  if argc ≠ 3 then ⟨1, true, false, false⟩
  else
    match outcome with
    | .ok => ⟨0, false, true, false⟩
    | .raised => ⟨0, false, true, true⟩

/-- C9.  The process exits with status 1 exactly when the argument count
differs from the one supported invocation form (usage printed, no connection
attempted); with the right argument count, both a normal run and any
exception caught at the top-level boundary exit with status 0, the exception
being logged. -/
theorem C9_exit_codes (argc : Nat) (outcome : RunOutcome) :
    ((mainModel argc outcome).exitCode = 1 ↔ argc ≠ 3) ∧
      (argc ≠ 3 → (mainModel argc outcome).usagePrinted = true ∧
        (mainModel argc outcome).connectionAttempted = false) ∧
      (argc = 3 → (mainModel argc outcome).exitCode = 0 ∧
        (outcome = .raised → (mainModel argc outcome).loggedException = true)) := by
  unfold mainModel
  by_cases h : argc ≠ 3
  · rw [if_pos h]
    exact ⟨by simp [h], fun _ => ⟨rfl, rfl⟩, fun h3 => absurd h3 h⟩
  · rw [if_neg h]
    push_neg at h
    cases outcome
    · exact ⟨by simp [h], fun hc => absurd h hc, fun _ => ⟨rfl, by simp⟩⟩
    · exact ⟨by simp [h], fun hc => absurd h hc, fun _ => ⟨rfl, fun _ => rfl⟩⟩

/-! ## The launch-speed regression of `EstimateShotVelocityFCV1`
(src/main.cpp:84-135)

The magnitude inversion `v0_speed` is modelled over exact reals.  The C++
float operations that can leave the real domain are made explicit:
`std::log` of a non-positive argument and `std::sqrt` of a negative argument
return NaN, modelled as `none`; every comparison with NaN is false, so a NaN
`v0_speed` makes the assertion `target_speed < v0_speed` (src/main.cpp:135)
fire.  The claim is therefore read as: the computation yields `some v0` with
`target_speed < v0`. -/

/-- `std::log` with its real domain: NaN outside it. -/
noncomputable def logD (x : ℝ) : Option ℝ :=
  if 0 < x then some (Real.log x) else none

/-- `std::sqrt` with its real domain: NaN outside it. -/
noncomputable def sqrtD (x : ℝ) : Option ℝ :=
  if 0 ≤ x then some (Real.sqrt x) else none

/-- The three-band regression computing `v0_speed` (src/main.cpp:92-133).
Coefficients are the decimal literals of the source, read exactly. -/
noncomputable def v0SpeedFCV1 (target_r target_speed : ℝ) : Option ℝ :=
  if target_speed ≤ 0.05 then
    (logD (target_r + -29.898958358378636)).bind fun lg =>
      sqrtD ((0.0005048122574925176 * target_r + 0.2756242531609261) *
          target_speed ^ 2 +
        (-0.00046669575066030805 * lg + -0.0014030973174948508) * target_speed +
        (0.13968687866736632 * target_r + 0.41120940058777616))
  else if target_speed ≤ 1 then
    (logD (target_r + -29.86751291726946)).bind fun lg =>
      sqrtD ((-0.0014309170115803444 * target_r + 0.9858457898438147) *
          target_speed ^ 2 +
        (0.0008339331735471273 * lg + -0.19811799977982522) * target_speed +
        (0.13967323742978 * target_r + 0.42816312110477517))
  else
    (logD (target_r + -8.228225657195706)).bind fun lg =>
      sqrtD ((0.0000010833113118071224 * target_r ^ 3 +
          -0.00012132851917870833 * target_r ^ 2 +
          0.004578093297561233 * target_r + 0.9767006869364527) *
          target_speed ^ 2 +
        (-0.07950648211492622 * lg + -0.05601306077702578) * target_speed +
        (0.14140440186382008 * target_r + 0.3875782508767419))

/-- C5, counterexample.  The claim quantifies over every target at nonzero
distance; at distance 1 (and arrival speed 0, i.e. a draw to a point 1 m
away) the first band's logarithm argument `1 - 29.898958…` is negative, the
float computation produces NaN, and the assertion
`target_speed < v0_speed` fires — there is no real launch speed exceeding
the arrival speed. -/
theorem C5_counterexample :
    ¬ ∃ v : ℝ, v0SpeedFCV1 1 0 = some v ∧ (0 : ℝ) < v := by
  have h : v0SpeedFCV1 1 0 = none := by
    unfold v0SpeedFCV1 logD
    norm_num
  rintro ⟨v, hv, -⟩
  rw [h] at hv
  exact Option.noConfusion hv

/-- Band 1 of the regression (arrival speed at most 0.05): for distances of
at least 30 the radicand strictly dominates the squared arrival speed. -/
lemma band1_radicand (r s L : ℝ) (hr : 30 ≤ r) (hs0 : 0 ≤ s) (hs : s ≤ 0.05)
    (hL : L ≤ r + -29.898958358378636 - 1) :
    s ^ 2 < (0.0005048122574925176 * r + 0.2756242531609261) * s ^ 2 +
      (-0.00046669575066030805 * L + -0.0014030973174948508) * s +
      (0.13968687866736632 * r + 0.41120940058777616) := by
  have h1 : 0.00046669575066030805 * L ≤
      0.00046669575066030805 * (r - 30.898958358378636) := by nlinarith
  have h2 := mul_le_mul_of_nonneg_right h1 hs0
  have h3 : (r - 30.898958358378636) * s ≤ (r - 30) * 0.05 := by
    nlinarith [mul_nonneg (by linarith : (0:ℝ) ≤ 0.05 - s)
      (by linarith : (0:ℝ) ≤ r - 30)]
  have hc0 : (0:ℝ) ≤ (0.0005048122574925176 * r + 0.2756242531609261) * s ^ 2 :=
    mul_nonneg (by nlinarith) (sq_nonneg s)
  nlinarith [h2, h3, hc0, sq_nonneg s]

/-- Band 2 of the regression (arrival speed in (0.05, 1]).  Here the log
coefficient of the source is `-kC1[0]` with `kC1[0]` itself negative, so the
radicand carries `+0.0008339331735471273 · log u`; with `r ≥ 30` the shifted
distance `u = r − 29.8675…` is at least `0.1324…`, which bounds the logarithm
below by `1 − 1/u ≥ −6.6`. -/
lemma band2_radicand (r s L : ℝ) (hr : 30 ≤ r) (hs0 : 0.05 < s) (hs : s ≤ 1)
    (hL : (-6.6 : ℝ) ≤ L) :
    s ^ 2 < (-0.0014309170115803444 * r + 0.9858457898438147) * s ^ 2 +
      (0.0008339331735471273 * L + -0.19811799977982522) * s +
      (0.13967323742978 * r + 0.42816312110477517) := by
  have hs0' : (0:ℝ) ≤ s := by linarith
  have h1 : 0.0008339331735471273 * (-6.6) ≤ 0.0008339331735471273 * L := by
    nlinarith
  have h2 := mul_le_mul_of_nonneg_right h1 hs0'
  have h4 : (0:ℝ) ≤ (1 - (-0.0014309170115803444 * r + 0.9858457898438147)) *
      (1 - s ^ 2) := by
    refine mul_nonneg (by nlinarith) ?_
    nlinarith [mul_nonneg (by linarith : (0:ℝ) ≤ 1 - s) hs0']
  nlinarith [h2, h4, hs, hs0']

/-- The distance polynomial of band 3 stays at least 1 on distances of at
least 30 (it is increasing there; the derivative's discriminant is
negative). -/
lemma band3_c0_ge_one (r : ℝ) (hr : 30 ≤ r) :
    1 ≤ 0.0000010833113118071224 * r ^ 3 + -0.00012132851917870833 * r ^ 2 +
      0.004578093297561233 * r + 0.9767006869364527 := by
  nlinarith [mul_nonneg (by linarith : (0:ℝ) ≤ r - 30) (sq_nonneg (r - 41)),
    sq_nonneg r, hr]

/-- Band 3 of the regression (arrival speed in (1, 4]); `t` is the square
root of the shifted distance, which bounds the logarithm:
`log u = 2 log √u ≤ 2(√u − 1)`. -/
lemma band3_radicand (r s L t : ℝ) (hr : 30 ≤ r) (hs1 : 1 < s) (hs : s ≤ 4)
    (ht0 : 0 ≤ t) (ht2 : t ^ 2 = r + -8.228225657195706) (hL : L ≤ 2 * t - 2) :
    s ^ 2 < (0.0000010833113118071224 * r ^ 3 +
        -0.00012132851917870833 * r ^ 2 +
        0.004578093297561233 * r + 0.9767006869364527) * s ^ 2 +
      (-0.07950648211492622 * L + -0.05601306077702578) * s +
      (0.14140440186382008 * r + 0.3875782508767419) := by
  have hs0 : (0:ℝ) ≤ s := by linarith
  have ht4 : 4 ≤ t := by nlinarith [ht2, ht0, hr]
  have hc0 := band3_c0_ge_one r hr
  have hc0s : (0:ℝ) ≤ (0.0000010833113118071224 * r ^ 3 +
      -0.00012132851917870833 * r ^ 2 +
      0.004578093297561233 * r + 0.9767006869364527 - 1) * s ^ 2 :=
    mul_nonneg (by linarith) (sq_nonneg s)
  -- c1 ≥ -(2·A·(t-1) + B), and that bound is nonnegative since t ≥ 4.
  have hE : (0:ℝ) ≤ 0.07950648211492622 * (2 * t - 2) + 0.05601306077702578 := by
    nlinarith
  have hc1 : -0.07950648211492622 * L + -0.05601306077702578 ≥
      -(0.07950648211492622 * (2 * t - 2) + 0.05601306077702578) := by nlinarith
  have hc1s : (-0.07950648211492622 * L + -0.05601306077702578) * s ≥
      -(0.07950648211492622 * (2 * t - 2) + 0.05601306077702578) * 4 := by
    have hup := mul_le_mul_of_nonneg_right hc1.le hs0
    nlinarith [mul_le_mul_of_nonneg_left hs hE, hup]
  nlinarith [hc0s, hc1s, ht2, sq_nonneg (t - 9/4), ht0, ht4]

/-- C5, amended.  For arrival speeds in the supported domain `[0, 4]` and
target distances of at least 30 — large enough that every band's logarithm
argument is positive, which the original claim's "any nonzero distance" does
not guarantee (see the counterexample at distance 1) — the regression yields
a real launch speed strictly above the arrival speed, so the assertion
`target_speed < v0_speed` cannot fire. -/
theorem C5_launch_speed_exceeds (r s : ℝ) (hr : 30 ≤ r) (hs0 : 0 ≤ s)
    (hs4 : s ≤ 4) : ∃ v, v0SpeedFCV1 r s = some v ∧ s < v := by
  by_cases hb1 : s ≤ 0.05
  · have hu : (0:ℝ) < r + -29.898958358378636 := by linarith
    have hL := Real.log_le_sub_one_of_pos hu
    have hrad := band1_radicand r s (Real.log (r + -29.898958358378636)) hr hs0
      hb1 (by linarith)
    have h1 : v0SpeedFCV1 r s =
        sqrtD ((0.0005048122574925176 * r + 0.2756242531609261) * s ^ 2 +
          (-0.00046669575066030805 * Real.log (r + -29.898958358378636) +
            -0.0014030973174948508) * s +
          (0.13968687866736632 * r + 0.41120940058777616)) := by
      unfold v0SpeedFCV1 logD
      rw [if_pos hb1, if_pos hu, Option.some_bind]
    rw [h1]
    unfold sqrtD
    rw [if_pos (le_trans (sq_nonneg s) (le_of_lt hrad))]
    exact ⟨_, rfl, (Real.lt_sqrt hs0).mpr hrad⟩
  · by_cases hb2 : s ≤ 1
    · have hu : (0:ℝ) < r + -29.86751291726946 := by linarith
      -- log u ≥ 1 − 1/u, and 1/u ≤ 38/5 since u ≥ 5/38 when r ≥ 30.
      have hinv : 1 - (r + -29.86751291726946)⁻¹ ≤
          Real.log (r + -29.86751291726946) := by
        have h := Real.log_le_sub_one_of_pos (inv_pos.mpr hu)
        rw [Real.log_inv] at h
        linarith
      have hub : (r + -29.86751291726946)⁻¹ ≤ 38/5 := by
        have h58 : (5:ℝ)/38 ≤ r + -29.86751291726946 := by linarith
        calc (r + -29.86751291726946)⁻¹ ≤ ((5:ℝ)/38)⁻¹ :=
              inv_anti₀ (by norm_num) h58
          _ = 38/5 := by norm_num
      have hL : (-6.6 : ℝ) ≤ Real.log (r + -29.86751291726946) := by linarith
      have hrad := band2_radicand r s (Real.log (r + -29.86751291726946)) hr
        (by linarith [not_le.mp hb1]) hb2 hL
      have h1 : v0SpeedFCV1 r s =
          sqrtD ((-0.0014309170115803444 * r + 0.9858457898438147) * s ^ 2 +
            (0.0008339331735471273 * Real.log (r + -29.86751291726946) +
              -0.19811799977982522) * s +
            (0.13967323742978 * r + 0.42816312110477517)) := by
        unfold v0SpeedFCV1 logD
        rw [if_neg hb1, if_pos hb2, if_pos hu, Option.some_bind]
      rw [h1]
      unfold sqrtD
      rw [if_pos (le_trans (sq_nonneg s) (le_of_lt hrad))]
      exact ⟨_, rfl, (Real.lt_sqrt hs0).mpr hrad⟩
    · have hu : (0:ℝ) < r + -8.228225657195706 := by linarith
      have ht0 : 0 ≤ Real.sqrt (r + -8.228225657195706) := Real.sqrt_nonneg _
      have ht2 : (Real.sqrt (r + -8.228225657195706)) ^ 2 =
          r + -8.228225657195706 := Real.sq_sqrt (le_of_lt hu)
      have hlog : Real.log (r + -8.228225657195706) ≤
          2 * Real.sqrt (r + -8.228225657195706) - 2 := by
        have h1 := Real.log_le_sub_one_of_pos (Real.sqrt_pos.mpr hu)
        have h2 := Real.log_sqrt (le_of_lt hu)
        linarith
      have hrad := band3_radicand r s (Real.log (r + -8.228225657195706))
        (Real.sqrt (r + -8.228225657195706)) hr (by linarith [not_le.mp hb2])
        hs4 ht0 ht2 hlog
      have h1 : v0SpeedFCV1 r s =
          sqrtD ((0.0000010833113118071224 * r ^ 3 +
              -0.00012132851917870833 * r ^ 2 +
              0.004578093297561233 * r + 0.9767006869364527) * s ^ 2 +
            (-0.07950648211492622 * Real.log (r + -8.228225657195706) +
              -0.05601306077702578) * s +
            (0.14140440186382008 * r + 0.3875782508767419)) := by
        unfold v0SpeedFCV1 logD
        rw [if_neg hb1, if_neg hb2, if_pos hu, Option.some_bind]
      rw [h1]
      unfold sqrtD
      rw [if_pos (le_trans (sq_nonneg s) (le_of_lt hrad))]
      exact ⟨_, rfl, (Real.lt_sqrt hs0).mpr hrad⟩

/-- C5, witness: a draw of arrival speed 2 to a target 38 m away (the
typical tee distance) gets a real launch speed above 2. -/
theorem C5_launch_speed_exceeds_witness :
    (30 ≤ (38:ℝ) ∧ (0:ℝ) ≤ 2 ∧ (2:ℝ) ≤ 4) ∧
      ∃ v, v0SpeedFCV1 38 2 = some v ∧ (2:ℝ) < v :=
  ⟨⟨by norm_num, by norm_num, by norm_num⟩,
    C5_launch_speed_exceeds 38 2 (by norm_num) (by norm_num) (by norm_num)⟩

end AIcyObsidian
